import Mathlib

/-!
# Verification of OpenChatKit's dynamic gradient scaler and data-parallel coordinator

This development shallowly embeds two modules of the repository:

* `training/optimizer/grad_scalar.py` — the `DynamicGradScaler` state machine
  (scale values are modelled as exact rationals, the trackers as integers,
  matching the unbounded Python integers; the tensor wrappers around the
  scalar values are transparent to the control flow being verified);
* `training/data_parallel/dist_dp_allreduce.py` — the `AllReduceDP`
  coordinator, modelled as two op programs (compute queue, communication
  queue) over CUDA-event record/wait operations, with an interleaving trace
  semantics for the stream scheduler.

Theorems about the embedding follow the definitions.
-/

/-- State of `DynamicGradScaler` (grad_scalar.py).  The first six fields are
the configuration fixed at construction; `growth_tracker` and
`hysteresis_tracker` are the mutable counters (`self._growth_tracker`,
`self._hysteresis_tracker`); `scale` is `self._scale`. -/
structure DynamicGradScaler where
  scale : ℚ
  min_scale : ℚ
  growth_factor : ℚ
  backoff_factor : ℚ
  growth_interval : ℤ
  hysteresis : ℤ
  growth_tracker : ℤ
  hysteresis_tracker : ℤ
  deriving DecidableEq, Repr

/-- `DynamicGradScaler.__init__` together with `GradScaler.__init__`:
the `assert` statements become the guard; on success the state is
initialised with `growth_tracker = 0` and `hysteresis_tracker = hysteresis`. -/
def DynamicGradScaler.mkChecked (initial_scale min_scale growth_factor
    backoff_factor : ℚ) (growth_interval hysteresis : ℤ) :
    Option DynamicGradScaler :=
  if initial_scale > 0 ∧ min_scale > 0 ∧ min_scale ≤ initial_scale ∧
      growth_factor > 1 ∧ backoff_factor < 1 ∧ backoff_factor > 0 ∧
      growth_interval > 0 ∧ hysteresis > 0 then
    some { scale := initial_scale
           min_scale := min_scale
           growth_factor := growth_factor
           backoff_factor := backoff_factor
           growth_interval := growth_interval
           hysteresis := hysteresis
           growth_tracker := 0
           hysteresis_tracker := hysteresis }
  else
    none

/-- `DynamicGradScaler.update(found_inf)` (grad_scalar.py lines 79-100).
On `found_inf`, zero the growth tracker, decrement the hysteresis tracker,
and back the scale off (clamped to `min_scale`) once the tracker is ≤ 0.
Otherwise increment the growth tracker and, when it reaches
`growth_interval`, reset both trackers and grow the scale. -/
def DynamicGradScaler.update (s : DynamicGradScaler) (found_inf : Bool) :
    DynamicGradScaler :=
  if found_inf then
    let s' := { s with growth_tracker := 0,
                       hysteresis_tracker := s.hysteresis_tracker - 1 }
    if s'.hysteresis_tracker ≤ 0 then
      { s' with scale := max (s'.scale * s'.backoff_factor) s'.min_scale }
    else
      s'
  else
    let s' := { s with growth_tracker := s.growth_tracker + 1 }
    if s'.growth_tracker = s'.growth_interval then
      { s' with growth_tracker := 0,
                hysteresis_tracker := s'.hysteresis,
                scale := s'.scale * s'.growth_factor }
    else
      s'

/-- A sequence of `update` calls, first element applied first. -/
def DynamicGradScaler.updateSeq (s : DynamicGradScaler) :
    List Bool → DynamicGradScaler
  | [] => s
  | b :: bs => DynamicGradScaler.updateSeq (s.update b) bs

/-- The checkpoint record returned by `DynamicGradScaler.state_dict`:
exactly the three fields `scale`, `growth_tracker`, `hysteresis_tracker`. -/
structure GradScalerStateDict where
  scale : ℚ
  growth_tracker : ℤ
  hysteresis_tracker : ℤ
  deriving DecidableEq, Repr

/-- `DynamicGradScaler.state_dict` (grad_scalar.py lines 102-107). -/
def DynamicGradScaler.state_dict (s : DynamicGradScaler) :
    GradScalerStateDict :=
  { scale := s.scale
    growth_tracker := s.growth_tracker
    hysteresis_tracker := s.hysteresis_tracker }

/-- `DynamicGradScaler.load_state_dict` (grad_scalar.py lines 109-112):
plain field assignment, no validation. -/
def DynamicGradScaler.load_state_dict (s : DynamicGradScaler)
    (d : GradScalerStateDict) : DynamicGradScaler :=
  { s with scale := d.scale
           growth_tracker := d.growth_tracker
           hysteresis_tracker := d.hysteresis_tracker }

@[simp]
theorem DynamicGradScaler.updateSeq_nil (s : DynamicGradScaler) :
    s.updateSeq [] = s := rfl

@[simp]
theorem DynamicGradScaler.updateSeq_cons (s : DynamicGradScaler) (b : Bool)
    (bs : List Bool) : s.updateSeq (b :: bs) = (s.update b).updateSeq bs := rfl

/-- `update` never touches the five configuration fields. -/
theorem DynamicGradScaler.update_config (s : DynamicGradScaler) (b : Bool) :
    (s.update b).min_scale = s.min_scale ∧
    (s.update b).growth_factor = s.growth_factor ∧
    (s.update b).backoff_factor = s.backoff_factor ∧
    (s.update b).growth_interval = s.growth_interval ∧
    (s.update b).hysteresis = s.hysteresis := by
  cases b <;> simp [DynamicGradScaler.update] <;> split <;> simp

/-- `updateSeq` never touches the five configuration fields. -/
theorem DynamicGradScaler.updateSeq_config (s : DynamicGradScaler)
    (l : List Bool) :
    (s.updateSeq l).min_scale = s.min_scale ∧
    (s.updateSeq l).growth_factor = s.growth_factor ∧
    (s.updateSeq l).backoff_factor = s.backoff_factor ∧
    (s.updateSeq l).growth_interval = s.growth_interval ∧
    (s.updateSeq l).hysteresis = s.hysteresis := by
  induction l generalizing s with
  | nil => simp
  | cons b bs ih =>
      have hcfg := DynamicGradScaler.update_config s b
      have := ih (s.update b)
      simp only [DynamicGradScaler.updateSeq_cons]
      exact ⟨this.1.trans hcfg.1, this.2.1.trans hcfg.2.1,
        this.2.2.1.trans hcfg.2.2.1, this.2.2.2.1.trans hcfg.2.2.2.1,
        this.2.2.2.2.trans hcfg.2.2.2.2⟩

/-- Unfolding of `update true` in the backoff case. -/
theorem DynamicGradScaler.update_true_backoff (s : DynamicGradScaler)
    (h : s.hysteresis_tracker ≤ 1) :
    s.update true =
      { s with growth_tracker := 0,
               hysteresis_tracker := s.hysteresis_tracker - 1,
               scale := max (s.scale * s.backoff_factor) s.min_scale } := by
  simp [DynamicGradScaler.update, show s.hysteresis_tracker - 1 ≤ 0 by omega]

/-- Unfolding of `update true` in the tolerated-overflow case. -/
theorem DynamicGradScaler.update_true_tolerate (s : DynamicGradScaler)
    (h : 1 < s.hysteresis_tracker) :
    s.update true =
      { s with growth_tracker := 0,
               hysteresis_tracker := s.hysteresis_tracker - 1 } := by
  simp [DynamicGradScaler.update, show ¬s.hysteresis_tracker - 1 ≤ 0 by omega]

/-- Unfolding of `update false` when the growth interval completes. -/
theorem DynamicGradScaler.update_false_grow (s : DynamicGradScaler)
    (h : s.growth_tracker + 1 = s.growth_interval) :
    s.update false =
      { s with growth_tracker := 0,
               hysteresis_tracker := s.hysteresis,
               scale := s.scale * s.growth_factor } := by
  simp [DynamicGradScaler.update, h]

/-- Unfolding of `update false` when the growth interval is incomplete. -/
theorem DynamicGradScaler.update_false_count (s : DynamicGradScaler)
    (h : s.growth_tracker + 1 ≠ s.growth_interval) :
    s.update false = { s with growth_tracker := s.growth_tracker + 1 } := by
  simp [DynamicGradScaler.update, h]

/-- `update true` always decrements the hysteresis tracker by one and zeroes
the growth tracker, whether or not the backoff fires. -/
theorem DynamicGradScaler.update_true_trackers (s : DynamicGradScaler) :
    (s.update true).hysteresis_tracker = s.hysteresis_tracker - 1 ∧
    (s.update true).growth_tracker = 0 := by
  by_cases h : s.hysteresis_tracker ≤ 1
  · rw [DynamicGradScaler.update_true_backoff s h]
    exact ⟨rfl, rfl⟩
  · rw [DynamicGradScaler.update_true_tolerate s (by omega)]
    exact ⟨rfl, rfl⟩

theorem DynamicGradScaler.updateSeq_append (s : DynamicGradScaler)
    (l1 l2 : List Bool) :
    s.updateSeq (l1 ++ l2) = (s.updateSeq l1).updateSeq l2 := by
  induction l1 generalizing s with
  | nil => simp
  | cons b bs ih => simp [ih]

/-- A run of `k` healthy steps that does not reach the growth interval only
counts: it moves `growth_tracker` forward and changes nothing else. -/
theorem DynamicGradScaler.false_run_counts (u : DynamicGradScaler) (k : ℕ)
    (hk : u.growth_tracker + (k : ℤ) < u.growth_interval) :
    u.updateSeq (List.replicate k false) =
      { u with growth_tracker := u.growth_tracker + (k : ℤ) } := by
  induction k generalizing u with
  | zero => simp
  | succ k ih =>
      rw [List.replicate_succ, DynamicGradScaler.updateSeq_cons,
        DynamicGradScaler.update_false_count u (by push_cast at hk; omega)]
      rw [ih _ (by simpa using by push_cast at hk ⊢; omega)]
      simp only [DynamicGradScaler.mk.injEq, and_true, true_and]
      push_cast
      omega

/-- A run of `k` overflow steps strictly shorter than the remaining
hysteresis budget leaves the scale alone and just counts the tracker down. -/
theorem DynamicGradScaler.true_run_no_backoff (u : DynamicGradScaler) (k : ℕ)
    (hk : (k : ℤ) < u.hysteresis_tracker) :
    (u.updateSeq (List.replicate k true)).scale = u.scale ∧
    (u.updateSeq (List.replicate k true)).hysteresis_tracker =
      u.hysteresis_tracker - k := by
  induction k generalizing u with
  | zero => simp
  | succ k ih =>
      rw [List.replicate_succ, DynamicGradScaler.updateSeq_cons]
      have h1 : (1:ℤ) < u.hysteresis_tracker := by push_cast at hk; omega
      have hht : (u.update true).hysteresis_tracker =
          u.hysteresis_tracker - 1 := (DynamicGradScaler.update_true_trackers u).1
      have hsc : (u.update true).scale = u.scale := by
        rw [DynamicGradScaler.update_true_tolerate u h1]
      obtain ⟨hs, hh⟩ := ih (u.update true)
        (by rw [hht]; push_cast at hk ⊢; omega)
      refine ⟨hs.trans hsc, ?_⟩
      rw [hh, hht]
      push_cast
      omega

/-- Every overflow step decrements the hysteresis tracker by exactly one,
so after `n` overflow steps it has dropped by `n`, with no lower bound. -/
theorem DynamicGradScaler.true_run_tracker (u : DynamicGradScaler) (n : ℕ) :
    (u.updateSeq (List.replicate n true)).hysteresis_tracker =
      u.hysteresis_tracker - n := by
  induction n generalizing u with
  | zero => simp
  | succ n ih =>
      rw [List.replicate_succ, DynamicGradScaler.updateSeq_cons, ih]
      rw [(DynamicGradScaler.update_true_trackers u).1]
      push_cast
      omega

/-- One `update` preserves `min_scale ≤ scale` when the configuration is
well-formed. -/
theorem DynamicGradScaler.update_preserves_lb (u : DynamicGradScaler)
    (b : Bool) (hm : 0 < u.min_scale) (hg : 1 < u.growth_factor)
    (hlb : u.min_scale ≤ u.scale) :
    (u.update b).min_scale ≤ (u.update b).scale := by
  cases b with
  | true =>
      by_cases h : u.hysteresis_tracker ≤ 1
      · rw [DynamicGradScaler.update_true_backoff u h]
        exact le_max_right _ _
      · rw [DynamicGradScaler.update_true_tolerate u (by omega)]
        exact hlb
  | false =>
      by_cases h : u.growth_tracker + 1 = u.growth_interval
      · rw [DynamicGradScaler.update_false_grow u h]
        refine hlb.trans ?_
        have hpos : (0:ℚ) ≤ u.scale := le_of_lt (lt_of_lt_of_le hm hlb)
        exact le_mul_of_one_le_right hpos (le_of_lt hg)
      · rw [DynamicGradScaler.update_false_count u h]
        exact hlb

/-- Any run of `update` calls preserves `min_scale ≤ scale` when the
configuration is well-formed. -/
theorem DynamicGradScaler.updateSeq_preserves_lb (u : DynamicGradScaler)
    (l : List Bool) (hm : 0 < u.min_scale) (hg : 1 < u.growth_factor)
    (hlb : u.min_scale ≤ u.scale) :
    (u.updateSeq l).min_scale ≤ (u.updateSeq l).scale := by
  induction l generalizing u with
  | nil => simpa using hlb
  | cons b bs ih =>
      have hcfg := DynamicGradScaler.update_config u b
      rw [DynamicGradScaler.updateSeq_cons]
      exact ih (u.update b) (hcfg.1 ▸ hm) (hcfg.2.1 ▸ hg)
        (DynamicGradScaler.update_preserves_lb u b hm hg hlb)

/-- C1: for every `DynamicGradScaler` constructed with valid parameters and
every sequence of `update(found_inf)` calls from the constructed state,
`scale ≥ min_scale` holds after every call (stated for an arbitrary call
sequence `l`, which covers every prefix of any run). -/
theorem dynamic_grad_scaler_scale_ge_min_scale
    (initial_scale min_scale growth_factor backoff_factor : ℚ)
    (growth_interval hysteresis : ℤ) (s : DynamicGradScaler)
    (h : DynamicGradScaler.mkChecked initial_scale min_scale growth_factor
        backoff_factor growth_interval hysteresis = some s)
    (l : List Bool) :
    (s.updateSeq l).min_scale ≤ (s.updateSeq l).scale := by
  rw [DynamicGradScaler.mkChecked] at h
  split at h
  case isFalse => exact absurd h (by simp)
  case isTrue hc =>
      obtain ⟨h1, h2, h3, h4, h5, h6, h7, h8⟩ := hc
      have hs := Option.some.inj h
      subst hs
      exact DynamicGradScaler.updateSeq_preserves_lb _ l h2 h4 h3

theorem dynamic_grad_scaler_scale_ge_min_scale_witness :
    ((⟨2, 1, 2, mkRat 1 2, 2, 1, 0, 1⟩ : DynamicGradScaler).updateSeq
        [true, true, false]).min_scale ≤
      ((⟨2, 1, 2, mkRat 1 2, 2, 1, 0, 1⟩ : DynamicGradScaler).updateSeq
        [true, true, false]).scale :=
  dynamic_grad_scaler_scale_ge_min_scale 2 1 2 (mkRat 1 2) 2 1
    ⟨2, 1, 2, mkRat 1 2, 2, 1, 0, 1⟩ (by decide) [true, true, false]

theorem DynamicGradScaler.updateSeq_concat (s : DynamicGradScaler)
    (l : List Bool) (b : Bool) :
    s.updateSeq (l ++ [b]) = (s.updateSeq l).update b := by
  rw [DynamicGradScaler.updateSeq_append]
  rfl

/-- C2: a backoff never resets the hysteresis tracker (`update true` always
just decrements it); only a completed growth interval resets it to
`hysteresis`; consequently, from any state with `hysteresis_tracker ≤ 1`,
after `n` further consecutive `update true` calls the tracker has dropped by
`n` (no lower bound) and the next `update true` call applies the backoff
formula `scale = max(scale * backoff_factor, min_scale)` again. -/
theorem backoff_does_not_reset_hysteresis (s : DynamicGradScaler)
    (h : s.hysteresis_tracker ≤ 1) (n : ℕ) :
    (s.update true).hysteresis_tracker = s.hysteresis_tracker - 1 ∧
    (∀ t : DynamicGradScaler, t.growth_tracker + 1 ≠ t.growth_interval →
      (t.update false).hysteresis_tracker = t.hysteresis_tracker) ∧
    (∀ t : DynamicGradScaler, t.growth_tracker + 1 = t.growth_interval →
      (t.update false).hysteresis_tracker = t.hysteresis) ∧
    (s.updateSeq (List.replicate n true)).hysteresis_tracker =
      s.hysteresis_tracker - n ∧
    ((s.updateSeq (List.replicate n true)).update true).scale =
      max ((s.updateSeq (List.replicate n true)).scale * s.backoff_factor)
        s.min_scale := by
  refine ⟨(DynamicGradScaler.update_true_trackers s).1, ?_, ?_,
    DynamicGradScaler.true_run_tracker s n, ?_⟩
  · intro t ht
    rw [DynamicGradScaler.update_false_count t ht]
  · intro t ht
    rw [DynamicGradScaler.update_false_grow t ht]
  · have hle : (s.updateSeq (List.replicate n true)).hysteresis_tracker ≤ 1 := by
      rw [DynamicGradScaler.true_run_tracker s n]
      omega
    have hcfg := DynamicGradScaler.updateSeq_config s (List.replicate n true)
    rw [DynamicGradScaler.update_true_backoff _ hle]
    show max ((s.updateSeq (List.replicate n true)).scale *
        (s.updateSeq (List.replicate n true)).backoff_factor)
        (s.updateSeq (List.replicate n true)).min_scale = _
    rw [hcfg.2.2.1, hcfg.1]

theorem backoff_does_not_reset_hysteresis_witness :
    ((⟨4, 1, 2, mkRat 1 2, 100, 3, 0, 1⟩ : DynamicGradScaler).updateSeq
        (List.replicate 2 true)).hysteresis_tracker = 1 - (2 : ℕ) :=
  (backoff_does_not_reset_hysteresis
    ⟨4, 1, 2, mkRat 1 2, 100, 3, 0, 1⟩ (by decide) 2).2.2.2.1

/-- C3: with `growth_interval = N` and `growth_tracker = 0`, a run of `N`
consecutive `update(false)` calls leaves `scale` unchanged on the first
`N - 1` calls; the `N`-th call multiplies `scale` by `growth_factor` exactly
once, resets `growth_tracker` to 0 and `hysteresis_tracker` to `hysteresis`.
No upper bound is applied to the grown scale. -/
theorem growth_interval_completion (s : DynamicGradScaler) (N : ℕ)
    (hN : 0 < N) (hgi : s.growth_interval = (N : ℤ))
    (hgt : s.growth_tracker = 0) :
    (∀ k : ℕ, k < N → (s.updateSeq (List.replicate k false)).scale = s.scale) ∧
    (s.updateSeq (List.replicate N false)).scale = s.scale * s.growth_factor ∧
    (s.updateSeq (List.replicate N false)).growth_tracker = 0 ∧
    (s.updateSeq (List.replicate N false)).hysteresis_tracker =
      s.hysteresis := by
  have hrun : ∀ k : ℕ, k < N → s.updateSeq (List.replicate k false) =
      { s with growth_tracker := (k : ℤ) } := by
    intro k hk
    rw [DynamicGradScaler.false_run_counts s k
      (by rw [hgt, hgi]; omega)]
    rw [hgt]
    simp
  refine ⟨fun k hk => by rw [hrun k hk], ?_⟩
  obtain ⟨m, rfl⟩ : ∃ m, N = m + 1 := ⟨N - 1, by omega⟩
  have hstep : s.updateSeq (List.replicate (m + 1) false) =
      (s.updateSeq (List.replicate m false)).update false := by
    rw [List.replicate_succ', DynamicGradScaler.updateSeq_concat]
  have hcond : ({ s with growth_tracker := ((m : ℕ) : ℤ) } :
      DynamicGradScaler).growth_tracker + 1 =
      ({ s with growth_tracker := ((m : ℕ) : ℤ) } :
      DynamicGradScaler).growth_interval := by
    show ((m : ℕ) : ℤ) + 1 = s.growth_interval
    rw [hgi]
    push_cast
    ring
  rw [hstep, hrun m (by omega), DynamicGradScaler.update_false_grow _ hcond]
  exact ⟨rfl, rfl, rfl⟩

theorem growth_interval_completion_witness :
    ((⟨2, 1, 2, mkRat 1 2, 2, 1, 0, 1⟩ : DynamicGradScaler).updateSeq
        (List.replicate 2 false)).scale = 2 * 2 :=
  (growth_interval_completion ⟨2, 1, 2, mkRat 1 2, 2, 1, 0, 1⟩ 2
    (by decide) (by decide) (by decide)).2.1

/-- C4: with `hysteresis_tracker = H > 0`, a run of `H` consecutive
`update(true)` calls leaves `scale` unchanged on the first `H - 1` calls;
the `H`-th call sets `scale = max(scale * backoff_factor, min_scale)`
exactly once; every such call zeroes `growth_tracker` and decrements
`hysteresis_tracker` by one. -/
theorem hysteresis_exhaustion (s : DynamicGradScaler) (H : ℕ) (hH : 0 < H)
    (hht : s.hysteresis_tracker = (H : ℤ)) :
    (∀ k : ℕ, k < H → (s.updateSeq (List.replicate k true)).scale = s.scale) ∧
    (s.updateSeq (List.replicate H true)).scale =
      max (s.scale * s.backoff_factor) s.min_scale ∧
    (∀ k : ℕ, 0 < k →
      (s.updateSeq (List.replicate k true)).growth_tracker = 0) ∧
    (∀ k : ℕ, (s.updateSeq (List.replicate k true)).hysteresis_tracker =
      (H : ℤ) - k) := by
  refine ⟨?_, ?_, ?_, ?_⟩
  · intro k hk
    exact (DynamicGradScaler.true_run_no_backoff s k
      (by rw [hht]; omega)).1
  · obtain ⟨m, rfl⟩ : ∃ m, H = m + 1 := ⟨H - 1, by omega⟩
    obtain ⟨hsc, hh⟩ := DynamicGradScaler.true_run_no_backoff s m
      (by rw [hht]; push_cast; omega)
    have hle : (s.updateSeq (List.replicate m true)).hysteresis_tracker ≤ 1 := by
      rw [hh, hht]
      push_cast
      omega
    have hcfg := DynamicGradScaler.updateSeq_config s (List.replicate m true)
    rw [List.replicate_succ', DynamicGradScaler.updateSeq_concat,
      DynamicGradScaler.update_true_backoff _ hle]
    show max ((s.updateSeq (List.replicate m true)).scale *
        (s.updateSeq (List.replicate m true)).backoff_factor)
        (s.updateSeq (List.replicate m true)).min_scale = _
    rw [hsc, hcfg.2.2.1, hcfg.1]
  · intro k hk
    obtain ⟨j, rfl⟩ : ∃ j, k = j + 1 := ⟨k - 1, by omega⟩
    rw [List.replicate_succ', DynamicGradScaler.updateSeq_concat]
    exact (DynamicGradScaler.update_true_trackers _).2
  · intro k
    rw [DynamicGradScaler.true_run_tracker s k, hht]

theorem hysteresis_exhaustion_witness :
    ((⟨8, 1, 2, mkRat 1 2, 10, 2, 0, 2⟩ : DynamicGradScaler).updateSeq
        (List.replicate 2 true)).scale = max ((8 : ℚ) * mkRat 1 2) 1 :=
  (hysteresis_exhaustion ⟨8, 1, 2, mkRat 1 2, 10, 2, 0, 2⟩ 2
    (by decide) (by decide)).2.1

/-- C5: `load_state_dict(state_dict())` restores `scale`, `growth_tracker`
and `hysteresis_tracker` exactly and leaves the five fixed configuration
fields of the target untouched; the snapshot consists of exactly those three
fields.  Restoring a scaler's own snapshot is the identity. -/
theorem state_dict_roundtrip :
    (∀ s : DynamicGradScaler, s.load_state_dict s.state_dict = s) ∧
    (∀ s : DynamicGradScaler, s.state_dict =
      { scale := s.scale
        growth_tracker := s.growth_tracker
        hysteresis_tracker := s.hysteresis_tracker }) ∧
    (∀ s t : DynamicGradScaler,
      (t.load_state_dict s.state_dict).scale = s.scale ∧
      (t.load_state_dict s.state_dict).growth_tracker = s.growth_tracker ∧
      (t.load_state_dict s.state_dict).hysteresis_tracker =
        s.hysteresis_tracker ∧
      (t.load_state_dict s.state_dict).min_scale = t.min_scale ∧
      (t.load_state_dict s.state_dict).growth_factor = t.growth_factor ∧
      (t.load_state_dict s.state_dict).backoff_factor = t.backoff_factor ∧
      (t.load_state_dict s.state_dict).growth_interval = t.growth_interval ∧
      (t.load_state_dict s.state_dict).hysteresis = t.hysteresis) := by
  refine ⟨fun s => rfl, fun s => rfl, fun s t =>
    ⟨rfl, rfl, rfl, rfl, rfl, rfl, rfl, rfl⟩⟩

/-- C9: `load_state_dict` performs no validation: a snapshot with
`scale < min_scale` is restored verbatim, the invariant `scale ≥ min_scale`
is violated after the restore, and it stays violated across any run of
`update(false)` calls too short to complete the growth interval. -/
theorem load_state_dict_no_validation (s : DynamicGradScaler)
    (d : GradScalerStateDict) (hlt : d.scale < s.min_scale) (k : ℕ)
    (hk : d.growth_tracker + (k : ℤ) < s.growth_interval) :
    (s.load_state_dict d).scale = d.scale ∧
    (s.load_state_dict d).scale < (s.load_state_dict d).min_scale ∧
    ((s.load_state_dict d).updateSeq (List.replicate k false)).scale =
      d.scale ∧
    ((s.load_state_dict d).updateSeq (List.replicate k false)).scale <
      ((s.load_state_dict d).updateSeq (List.replicate k false)).min_scale := by
  have hrun := DynamicGradScaler.false_run_counts (s.load_state_dict d) k hk
  have hcfg := DynamicGradScaler.updateSeq_config (s.load_state_dict d)
    (List.replicate k false)
  refine ⟨rfl, hlt, ?_, ?_⟩
  · rw [hrun]
    rfl
  · rw [hcfg.1, hrun]
    exact hlt

theorem load_state_dict_no_validation_witness :
    (((⟨4, 2, 2, mkRat 1 2, 5, 1, 0, 1⟩ :
        DynamicGradScaler).load_state_dict ⟨1, 0, 1⟩).updateSeq
        (List.replicate 3 false)).scale <
      (((⟨4, 2, 2, mkRat 1 2, 5, 1, 0, 1⟩ :
        DynamicGradScaler).load_state_dict ⟨1, 0, 1⟩).updateSeq
        (List.replicate 3 false)).min_scale :=
  (load_state_dict_no_validation ⟨4, 2, 2, mkRat 1 2, 5, 1, 0, 1⟩
    ⟨1, 0, 1⟩ (by decide) 3 (by decide)).2.2.2

/-- Minimal model of the state built by `AllReduceDP.__init__`
(dist_dp_allreduce.py) for the construction-precondition claim: the flatten
flag, the profiling flag and the required optimizer collaborator. -/
structure AllReduceDPInit (Optim : Type) where
  flatten : Bool
  enable_tidy_profiling : Bool
  optimizer : Optim

/-- `AllReduceDP.__init__`'s `assert optimizer is not None`
(dist_dp_allreduce.py line 35): construction with a missing optimizer
collaborator fails. -/
def AllReduceDPInit.mkChecked (Optim : Type) (flatten profiling : Bool)
    (optimizer : Option Optim) : Option (AllReduceDPInit Optim) :=
  match optimizer with
  | none => none
  | some o => some ⟨flatten, profiling, o⟩

/-- C6: `DynamicGradScaler` construction fails exactly when one of the
documented preconditions is violated, and `AllReduceDP` construction fails
when the required optimizer collaborator is missing. -/
theorem construction_fails_iff_precondition_violated :
    (∀ (initial_scale min_scale growth_factor backoff_factor : ℚ)
        (growth_interval hysteresis : ℤ),
      DynamicGradScaler.mkChecked initial_scale min_scale growth_factor
          backoff_factor growth_interval hysteresis = none ↔
        (initial_scale ≤ 0 ∨ min_scale ≤ 0 ∨ initial_scale < min_scale ∨
         growth_factor ≤ 1 ∨ backoff_factor ≤ 0 ∨ 1 ≤ backoff_factor ∨
         growth_interval ≤ 0 ∨ hysteresis ≤ 0)) ∧
    (∀ (Optim : Type) (flatten profiling : Bool)
        (optimizer : Option Optim),
      AllReduceDPInit.mkChecked Optim flatten profiling optimizer = none ↔
        optimizer = none) := by
  constructor
  · intro i ms gf bf gi hy
    rw [DynamicGradScaler.mkChecked]
    split
    case isTrue hc =>
      obtain ⟨h1, h2, h3, h4, h5, h6, h7, h8⟩ := hc
      refine iff_of_false (by simp) ?_
      push_neg
      exact ⟨by linarith, by linarith, by linarith, by linarith, by linarith,
        by linarith, by omega, by omega⟩
    case isFalse hc =>
      refine iff_of_true rfl ?_
      by_contra hno
      push_neg at hno
      exact hc ⟨hno.1, hno.2.1, hno.2.2.1, hno.2.2.2.1, hno.2.2.2.2.2.1,
        hno.2.2.2.2.1, hno.2.2.2.2.2.2.1, hno.2.2.2.2.2.2.2⟩
  · intro Optim fl pr o
    cases o <;> simp [AllReduceDPInit.mkChecked]

/-- The CUDA events created by `AllReduceDP.__init__`
(dist_dp_allreduce.py): the three cross-stream sync events plus the
profiling events (`allreduce_start none` is the single
`allreduce_gradients_start_event` of flattened mode; `allreduce_start
(some name)` / `allreduce_end name` are the per-parameter dictionaries). -/
inductive EventId where
  | backward_ready
  | allreduce_grad_ready
  | optimizer_step_ready
  | allreduce_start (name : Option String)
  | allreduce_end (name : String)
  | optimizer_step_start
  deriving DecidableEq, Repr

/-- One operation enqueued on a CUDA stream by the coordinator. -/
inductive Op where
  | waitEvent (e : EventId)
  | recordEvent (e : EventId)
  | allReduce (name : Option String)
  | optStep
  deriving DecidableEq, Repr

/-- `AllReduceDP.profile_mark_allreduce_start`: in a profiling run, record
the start event (the unnamed one for flattened mode, the per-parameter one
otherwise); otherwise do nothing. -/
def profile_mark_allreduce_start (profiling : Bool) (name : Option String) :
    List Op :=
  if profiling then [Op.recordEvent (EventId.allreduce_start name)] else []

/-- `AllReduceDP.profile_mark_allreduce_end`: the guard
`if self.enable_tidy_profiling and name:` is truthy only in a profiling run
with a non-`None`, non-empty name, so the no-name (flattened) call records
nothing. -/
def profile_mark_allreduce_end (profiling : Bool) (name : Option String) :
    List Op :=
  match name with
  | none => []
  | some nm =>
      if profiling ∧ nm ≠ "" then
        [Op.recordEvent (EventId.allreduce_end nm)]
      else []

/-- One iteration of the per-parameter loop of
`AllReduceDP._allreduce_gradients`: parameters without a gradient are
skipped; the others get start mark, reduction, end mark. -/
def param_allreduce_ops (profiling : Bool) (pr : String × Bool) : List Op :=
  if pr.2 then
    profile_mark_allreduce_start profiling (some pr.1) ++
      [Op.allReduce (some pr.1)] ++
      profile_mark_allreduce_end profiling (some pr.1)
  else []

/-- Everything `AllReduceDP._allreduce_gradients` enqueues on the
communication stream before the final record: the wait on
`backward_ready_event`, then the flattened single reduction or the
per-parameter reductions, with profiling marks. -/
def allreduce_gradients_body (profiling flatten : Bool)
    (params : List (String × Bool)) : List Op :=
  Op.waitEvent EventId.backward_ready ::
    (if flatten then
      profile_mark_allreduce_start profiling none ++ [Op.allReduce none] ++
        profile_mark_allreduce_end profiling none
    else
      params.flatMap (param_allreduce_ops profiling))

/-- The full communication-stream program of
`AllReduceDP._allreduce_gradients`: the body followed by recording
`allreduce_grad_ready_event`. -/
def allreduce_gradients_ops (profiling flatten : Bool)
    (params : List (String × Bool)) : List Op :=
  allreduce_gradients_body profiling flatten params ++
    [Op.recordEvent EventId.allreduce_grad_ready]

/-- The compute-stream program of `AllReduceDP.optimizer_step`: wait on
`allreduce_grad_ready_event`, optional `profile_mark_optimizer_step_start`,
the optimizer update, then record `optimizer_step_ready_event`. -/
def optimizer_step_comp_ops (profiling : Bool) : List Op :=
  Op.waitEvent EventId.allreduce_grad_ready ::
    ((if profiling then [Op.recordEvent EventId.optimizer_step_start]
      else []) ++
      [Op.optStep, Op.recordEvent EventId.optimizer_step_ready])

/-- Which execution queue a scheduled operation belongs to: the caller's
context (which records `backward_ready_event`), the compute stream, or the
communication stream. -/
inductive QTag where
  | ext
  | compute
  | comm
  deriving DecidableEq, Repr

/-- One executed operation of an interleaved schedule. -/
abbrev TraceEntry := QTag × Op

/-- The subsequence of a trace executed by one queue. -/
def queueOps (q : QTag) (tr : List TraceEntry) : List Op :=
  (tr.filter fun e => decide (e.1 = q)).map Prod.snd

/-- Boolean list-prefix test. -/
def isPrefixB : List Op → List Op → Bool
  | [], _ => true
  | _ :: _, [] => false
  | a :: as, b :: bs => decide (a = b) && isPrefixB as bs

/-- Scheduler semantics of events: a `waitEvent` may execute only once a
matching `recordEvent` executed earlier in the schedule (`rs` accumulates
the recorded events). -/
def waitsOk (rs : List EventId) : List TraceEntry → Bool
  | [] => true
  | (_, Op.waitEvent e) :: rest => decide (e ∈ rs) && waitsOk rs rest
  | (_, Op.recordEvent e) :: rest => waitsOk (e :: rs) rest
  | _ :: rest => waitsOk rs rest

/-- A valid interleaved execution of the three queues: each queue's
subsequence is a prefix of that queue's program (strict FIFO per queue,
partial executions allowed; the queues interleave arbitrarily otherwise),
and every wait is preceded by the matching record. -/
def validTrace (extOps compOps commOps : List Op)
    (tr : List TraceEntry) : Bool :=
  isPrefixB (queueOps QTag.ext tr) extOps &&
    (isPrefixB (queueOps QTag.compute tr) compOps &&
      (isPrefixB (queueOps QTag.comm tr) commOps && waitsOk [] tr))

theorem isPrefixB_iff (l prog : List Op) :
    isPrefixB l prog = true ↔ ∃ r, prog = l ++ r := by
  induction l generalizing prog with
  | nil => simp [isPrefixB]
  | cons a as ih =>
      cases prog with
      | nil =>
          simp [isPrefixB]
      | cons b bs =>
          simp only [isPrefixB, Bool.and_eq_true, decide_eq_true_eq, ih,
            List.cons_append, List.cons.injEq]
          constructor
          · rintro ⟨hab, r, hr⟩
            exact ⟨r, hab.symm, hr⟩
          · rintro ⟨r, hba, hr⟩
            exact ⟨hba.symm, r, hr⟩

theorem mem_of_isPrefixB (l prog : List Op) (x : Op)
    (h : isPrefixB l prog = true) (hx : x ∈ l) : x ∈ prog := by
  obtain ⟨r, rfl⟩ := (isPrefixB_iff l prog).mp h
  exact List.mem_append_left _ hx

@[simp]
theorem queueOps_nil (q : QTag) : queueOps q [] = [] := rfl

theorem queueOps_cons (q : QTag) (e : TraceEntry) (tr : List TraceEntry) :
    queueOps q (e :: tr) =
      if e.1 = q then e.2 :: queueOps q tr else queueOps q tr := by
  by_cases h : e.1 = q <;> simp [queueOps, List.filter_cons, h]

theorem queueOps_append (q : QTag) (a b : List TraceEntry) :
    queueOps q (a ++ b) = queueOps q a ++ queueOps q b := by
  simp [queueOps, List.filter_append]

theorem mem_queueOps_iff (q : QTag) (op : Op) (tr : List TraceEntry) :
    op ∈ queueOps q tr ↔ (q, op) ∈ tr := by
  simp only [queueOps, List.mem_map, List.mem_filter, decide_eq_true_eq]
  constructor
  · rintro ⟨x, ⟨hx, hq⟩, hop⟩
    have : x = (q, op) := by
      rcases x with ⟨x1, x2⟩
      simp only at hq hop
      rw [hq, hop]
    exact this ▸ hx
  · intro h
    exact ⟨(q, op), ⟨h, rfl⟩, rfl⟩

theorem waitsOk_mem_of_split (pre : List TraceEntry) (rs : List EventId)
    (tr suf : List TraceEntry) (q : QTag) (e : EventId)
    (hw : waitsOk rs tr = true)
    (hsplit : tr = pre ++ (q, Op.waitEvent e) :: suf) :
    e ∈ rs ∨ Op.recordEvent e ∈ pre.map Prod.snd := by
  induction pre generalizing rs tr with
  | nil =>
      subst hsplit
      simp only [List.nil_append, waitsOk, Bool.and_eq_true,
        decide_eq_true_eq] at hw
      exact Or.inl hw.1
  | cons x pre ih =>
      subst hsplit
      rcases x with ⟨tag, op⟩
      cases op with
      | waitEvent e' =>
          simp only [List.cons_append, waitsOk, Bool.and_eq_true] at hw
          rcases ih rs _ hw.2 rfl with h | h
          · exact Or.inl h
          · exact Or.inr (List.mem_cons_of_mem _ h)
      | recordEvent e' =>
          simp only [List.cons_append, waitsOk] at hw
          rcases ih (e' :: rs) _ hw rfl with h | h
          · rcases List.mem_cons.mp h with h | h
            · exact Or.inr (by simp [h])
            · exact Or.inl h
          · exact Or.inr (List.mem_cons_of_mem _ h)
      | allReduce nm =>
          simp only [List.cons_append, waitsOk] at hw
          rcases ih rs _ hw rfl with h | h
          · exact Or.inl h
          · exact Or.inr (List.mem_cons_of_mem _ h)
      | optStep =>
          simp only [List.cons_append, waitsOk] at hw
          rcases ih rs _ hw rfl with h | h
          · exact Or.inl h
          · exact Or.inr (List.mem_cons_of_mem _ h)

theorem head_mem_of_split (prog t l r : List Op) (h z : Op)
    (hhead : prog = h :: t) (hne : z ≠ h) (hsplit : prog = l ++ z :: r) :
    h ∈ l := by
  subst hhead
  cases l with
  | nil =>
      simp only [List.nil_append, List.cons.injEq] at hsplit
      exact absurd hsplit.1.symm hne
  | cons a l =>
      simp only [List.cons_append, List.cons.injEq] at hsplit
      rw [hsplit.1]
      exact List.mem_cons_self _ _

theorem prefix_to_unique_last (z : Op) (t r init : List Op)
    (hz : z ∉ init) (heq : t ++ z :: r = init ++ [z]) : t = init := by
  induction t generalizing init with
  | nil =>
      cases init with
      | nil => rfl
      | cons b bs =>
          simp only [List.nil_append, List.cons_append, List.cons.injEq]
            at heq
          exact absurd (heq.1 ▸ List.mem_cons_self b bs) hz
  | cons a as ih =>
      cases init with
      | nil =>
          simp only [List.nil_append, List.cons_append, List.cons.injEq]
            at heq
          simp at heq
      | cons b bs =>
          simp only [List.cons_append, List.cons.injEq] at heq
          rw [heq.1, ih bs (fun hm => hz (List.mem_cons_of_mem _ hm)) heq.2]

theorem record_agr_not_mem_comp (profiling : Bool) :
    Op.recordEvent EventId.allreduce_grad_ready ∉
      optimizer_step_comp_ops profiling := by
  cases profiling <;> decide

theorem record_agr_not_mem_param_ops (profiling : Bool)
    (pr : String × Bool) :
    Op.recordEvent EventId.allreduce_grad_ready ∉
      param_allreduce_ops profiling pr := by
  rcases pr with ⟨nm, hg⟩
  cases hg <;> cases profiling <;> by_cases h : nm = "" <;>
    simp [param_allreduce_ops, profile_mark_allreduce_start,
      profile_mark_allreduce_end, h]

theorem record_agr_not_mem_body (profiling flatten : Bool)
    (params : List (String × Bool)) :
    Op.recordEvent EventId.allreduce_grad_ready ∉
      allreduce_gradients_body profiling flatten params := by
  intro hm
  rw [allreduce_gradients_body] at hm
  rcases List.mem_cons.mp hm with h | h
  · exact absurd h (by decide)
  · split at h
    · cases profiling <;> simp [profile_mark_allreduce_start,
        profile_mark_allreduce_end] at h
    · obtain ⟨pr, _, hpr⟩ := List.mem_flatMap.mp h
      exact record_agr_not_mem_param_ops profiling pr hpr

/-- C7: in every valid interleaving of the caller's queue, the compute
stream and the communication stream, if the optimizer update executes then
every reduction of this step's communication program executed strictly
before it — the compute queue's wait on `allreduce_grad_ready_event`
(recorded after the last reduction) forces this.  The caller's queue may
run any operations that do not forge the coordinator's internal
`allreduce_grad_ready_event`. -/
theorem optimizer_update_waits_for_reductions
    (profiling flatten : Bool) (params : List (String × Bool))
    (extOps : List Op)
    (hext : Op.recordEvent EventId.allreduce_grad_ready ∉ extOps)
    (tr pre suf : List TraceEntry)
    (hvalid : validTrace extOps (optimizer_step_comp_ops profiling)
        (allreduce_gradients_ops profiling flatten params) tr = true)
    (hsplit : tr = pre ++ (QTag.compute, Op.optStep) :: suf)
    (nm : Option String)
    (hmem : Op.allReduce nm ∈
      allreduce_gradients_ops profiling flatten params) :
    Op.allReduce nm ∈ pre.map Prod.snd := by
  simp only [validTrace, Bool.and_eq_true] at hvalid
  obtain ⟨hprefE, hprefComp, hprefComm, hwaits⟩ := hvalid
  have hq : queueOps QTag.compute tr =
      queueOps QTag.compute pre ++
        Op.optStep :: queueOps QTag.compute suf := by
    rw [hsplit, queueOps_append, queueOps_cons]
    rfl
  obtain ⟨r0, hr0⟩ := (isPrefixB_iff _ _).mp hprefComp
  rw [hq, List.append_assoc, List.cons_append] at hr0
  have hwa : Op.waitEvent EventId.allreduce_grad_ready ∈
      queueOps QTag.compute pre :=
    head_mem_of_split (optimizer_step_comp_ops profiling) _
      (queueOps QTag.compute pre) (queueOps QTag.compute suf ++ r0)
      (Op.waitEvent EventId.allreduce_grad_ready) Op.optStep rfl
      (by decide) hr0
  obtain ⟨p1, p2, hpre⟩ := List.append_of_mem ((mem_queueOps_iff _ _ _).mp hwa)
  have htr2 : tr = p1 ++ (QTag.compute,
      Op.waitEvent EventId.allreduce_grad_ready) ::
      (p2 ++ (QTag.compute, Op.optStep) :: suf) := by
    rw [hsplit, hpre, List.append_assoc, List.cons_append]
  have hrecmem : Op.recordEvent EventId.allreduce_grad_ready ∈
      p1.map Prod.snd := by
    rcases waitsOk_mem_of_split p1 [] tr _ _ _ hwaits htr2 with h | h
    · exact absurd h (List.not_mem_nil _)
    · exact h
  obtain ⟨x, hxmem, hx2⟩ := List.mem_map.mp hrecmem
  have hxpair : (x.1, Op.recordEvent EventId.allreduce_grad_ready) ∈ p1 := by
    rw [← hx2]
    simpa using hxmem
  have hx_tr : (x.1, Op.recordEvent EventId.allreduce_grad_ready) ∈ tr := by
    rw [htr2]
    exact List.mem_append_left _ hxpair
  have htag : x.1 = QTag.comm := by
    cases hx1 : x.1 with
    | ext =>
        rw [hx1] at hx_tr
        exact absurd (mem_of_isPrefixB _ _ _ hprefE
          ((mem_queueOps_iff _ _ _).mpr hx_tr)) hext
    | compute =>
        rw [hx1] at hx_tr
        exact absurd (mem_of_isPrefixB _ _ _ hprefComp
          ((mem_queueOps_iff _ _ _).mpr hx_tr))
          (record_agr_not_mem_comp profiling)
    | comm => rfl
  rw [htag] at hxpair
  obtain ⟨a, b, hp1⟩ := List.append_of_mem hxpair
  have htr3 : tr = a ++ (QTag.comm,
      Op.recordEvent EventId.allreduce_grad_ready) ::
      (b ++ (QTag.compute, Op.waitEvent EventId.allreduce_grad_ready) ::
        (p2 ++ (QTag.compute, Op.optStep) :: suf)) := by
    rw [htr2, hp1, List.append_assoc, List.cons_append]
  have hqcomm : queueOps QTag.comm tr =
      queueOps QTag.comm a ++
        Op.recordEvent EventId.allreduce_grad_ready ::
        queueOps QTag.comm
          (b ++ (QTag.compute,
            Op.waitEvent EventId.allreduce_grad_ready) ::
            (p2 ++ (QTag.compute, Op.optStep) :: suf)) := by
    rw [htr3, queueOps_append, queueOps_cons]
    rfl
  obtain ⟨r1, hr1⟩ := (isPrefixB_iff _ _).mp hprefComm
  rw [hqcomm, List.append_assoc, List.cons_append] at hr1
  have hbody := prefix_to_unique_last
    (Op.recordEvent EventId.allreduce_grad_ready) (queueOps QTag.comm a) _
    (allreduce_gradients_body profiling flatten params)
    (record_agr_not_mem_body profiling flatten params) hr1.symm
  have hmem_body : Op.allReduce nm ∈
      allreduce_gradients_body profiling flatten params := by
    rw [allreduce_gradients_ops] at hmem
    rcases List.mem_append.mp hmem with h | h
    · exact h
    · simp at h
  have hmem_qa : Op.allReduce nm ∈ queueOps QTag.comm a := by
    rw [hbody]
    exact hmem_body
  have hxa : (QTag.comm, Op.allReduce nm) ∈ a :=
    (mem_queueOps_iff _ _ _).mp hmem_qa
  have hxpre : (QTag.comm, Op.allReduce nm) ∈ pre := by
    rw [hpre, hp1]
    exact List.mem_append_left _ (List.mem_append_left _ hxa)
  exact List.mem_map.mpr ⟨_, hxpre, rfl⟩

theorem optimizer_update_waits_for_reductions_witness :
    Op.allReduce none ∈ List.map Prod.snd
      ([((QTag.ext : QTag), Op.recordEvent EventId.backward_ready),
        (QTag.comm, Op.waitEvent EventId.backward_ready),
        (QTag.comm, Op.allReduce none),
        (QTag.comm, Op.recordEvent EventId.allreduce_grad_ready),
        (QTag.compute, Op.waitEvent EventId.allreduce_grad_ready)] :
        List TraceEntry) :=
  optimizer_update_waits_for_reductions false true []
    [Op.recordEvent EventId.backward_ready] (by decide)
    ([((QTag.ext : QTag), Op.recordEvent EventId.backward_ready),
      (QTag.comm, Op.waitEvent EventId.backward_ready),
      (QTag.comm, Op.allReduce none),
      (QTag.comm, Op.recordEvent EventId.allreduce_grad_ready),
      (QTag.compute, Op.waitEvent EventId.allreduce_grad_ready)] ++
      [(QTag.compute, Op.optStep)])
    [((QTag.ext : QTag), Op.recordEvent EventId.backward_ready),
      (QTag.comm, Op.waitEvent EventId.backward_ready),
      (QTag.comm, Op.allReduce none),
      (QTag.comm, Op.recordEvent EventId.allreduce_grad_ready),
      (QTag.compute, Op.waitEvent EventId.allreduce_grad_ready)]
    [] (by decide) rfl none (by decide)

/-- `AllReduceDP.get_ts` (dist_dp_allreduce.py lines 107-108): an absolute
timestamp derived from the stored reference wall-clock time and the CUDA
elapsed-time capability (milliseconds) from the reference event, with the
code's `* 1e+3` conversion factor. -/
def get_ts (init_time_stamp elapsed_from_init : ℚ) : ℚ :=
  init_time_stamp + elapsed_from_init * 1000

/-- The spec's timestamp-derivation formula exactly as the spec words it:
`timestamp(X) = reference_timestamp + elapsed_time(reference, X)`. -/
def spec_timestamp (reference_timestamp elapsed_ref_to_X : ℚ) : ℚ :=
  reference_timestamp + elapsed_ref_to_X

/-- C8 counterexample: with reference timestamp 0 and elapsed time 1 (one
millisecond reported by the sync primitive), the code returns 1000, not the
spec formula's 0 + 1. -/
theorem get_ts_deviates_from_spec_formula :
    get_ts 0 1 ≠ spec_timestamp 0 1 := by
  rw [get_ts, spec_timestamp]
  norm_num

/-- C8 amended: the derived timestamp is the reference timestamp plus the
sync primitive's elapsed time scaled by 1000 (the `* 1e+3`
milliseconds-to-microseconds conversion applied by the code). -/
theorem get_ts_is_reference_plus_scaled_elapsed :
    ∀ init_time_stamp elapsed_from_init : ℚ,
      get_ts init_time_stamp elapsed_from_init =
        spec_timestamp init_time_stamp (elapsed_from_init * 1000) :=
  fun _ _ => rfl

/-- One trace interval record assembled by
`AllReduceDP.profiling_data_parallel` (the `name`, `ts` and `dur` entries of
the emitted dict; the constant `pid`/`tid`/`cname` fields are irrelevant to
the claims). -/
structure ProfSlot where
  name : String
  ts : ℚ
  dur : ℚ
  deriving DecidableEq, Repr

/-- The flattened-mode output of `AllReduceDP.profiling_data_parallel`
(dist_dp_allreduce.py lines 114-121 and 133-135): the reduction interval is
measured from `allreduce_gradients_start_event` to
`allreduce_grad_ready_event`, the optimizer interval from
`optimizer_step_start_event` to `optimizer_step_ready_event`; `elapsed` is
the CUDA event elapsed-time capability in milliseconds, `elapsedInit` the
elapsed time from the reference event. -/
def profiling_data_parallel_flat (init_time_stamp : ℚ)
    (elapsedInit : EventId → ℚ) (elapsed : EventId → EventId → ℚ) :
    List ProfSlot :=
  [ { name := "opt_allreduce"
      ts := get_ts init_time_stamp (elapsedInit (EventId.allreduce_start none))
      dur := elapsed (EventId.allreduce_start none)
          EventId.allreduce_grad_ready * 1000 },
    { name := "opt_comp"
      ts := get_ts init_time_stamp (elapsedInit EventId.optimizer_step_start)
      dur := elapsed EventId.optimizer_step_start
          EventId.optimizer_step_ready * 1000 } ]

/-- C10: `profile_mark_allreduce_end` with no name (or an empty name)
records nothing, so the flattened-mode communication program contains no
`allreduce_end` record for any parameter name; the flattened-mode trace
durations are instead measured from the allreduce start event to the
reduction-completion event `allreduce_grad_ready_event` (and from the
optimizer start to the optimizer ready event). -/
theorem flatten_mode_has_no_end_marker :
    (∀ profiling : Bool, profile_mark_allreduce_end profiling none = []) ∧
    (∀ profiling : Bool,
      profile_mark_allreduce_end profiling (some "") = []) ∧
    (∀ (profiling : Bool) (params : List (String × Bool)) (nm : String),
      Op.recordEvent (EventId.allreduce_end nm) ∉
        allreduce_gradients_ops profiling true params) ∧
    (∀ (init_time_stamp : ℚ) (elapsedInit : EventId → ℚ)
        (elapsed : EventId → EventId → ℚ),
      (profiling_data_parallel_flat init_time_stamp elapsedInit
          elapsed).map ProfSlot.dur =
        [elapsed (EventId.allreduce_start none)
            EventId.allreduce_grad_ready * 1000,
         elapsed EventId.optimizer_step_start
            EventId.optimizer_step_ready * 1000]) := by
  refine ⟨fun profiling => rfl, ?_, ?_, fun i eI e => rfl⟩
  · intro profiling
    cases profiling <;> rfl
  · intro profiling params nm
    cases profiling <;>
      simp [allreduce_gradients_ops, allreduce_gradients_body,
        profile_mark_allreduce_start, profile_mark_allreduce_end]
